import Mathlib

/-!
Shallow embedding of the roarsvg library (src/lib.rs): the lyon-path to
usvg translator `lyon_path_to_usvg`, the `LyonWriter` document assembler
(`push`, `push_text`, `prepare`, `add_fonts`, `write`) together with the
parts of the external `tiny_skia_path` / `usvg` collaborators that the
library calls into (`PathBuilder`, `Rect::from_points`, `Size::from_wh`,
`NonZeroRect::from_xywh`, `NonZeroPositiveF32::new`).

Machine floats (`f32`) are modelled by exact rationals: every coordinate
admitted by the data model is finite, and no verified claim depends on
rounding.  The single place where a non-finite value can arise (dividing
the accumulated midpoint total by a node count of zero yields NaN, which
`NonZeroRect::from_xywh` then rejects) is modelled explicitly by the
`Option ℚ` result of `qdivCount`.
-/

/-- A 2-D point; `lyon` and `tiny-skia` points are pairs of `f32`. -/
abbrev Point : Type := ℚ × ℚ

/-- One drawing command of a `tiny_skia_path::Path`: a verb together with
its points (the source keeps verbs and points in two parallel vectors;
they are fused here). -/
inductive PathCmd : Type
  | moveTo (p : Point)
  | lineTo (p : Point)
  | quadTo (ctrl p : Point)
  | cubicTo (ctrl1 ctrl2 p : Point)
  | close
deriving DecidableEq, Repr

/-- The points vector of a command list, in push order (mirrors the
`points` vector the builder maintains next to `verbs`: one point per
Move/Line, two per Quad, three per Cubic, none for Close). -/
def pointsOf : List PathCmd → List Point
  | [] => []
  | .moveTo p :: l => p :: pointsOf l
  | .lineTo p :: l => p :: pointsOf l
  | .quadTo c p :: l => c :: p :: pointsOf l
  | .cubicTo c1 c2 p :: l => c1 :: c2 :: p :: pointsOf l
  | .close :: l => pointsOf l

/-- `tiny_skia_path::Rect`: left/top/right/bottom.  The validity checks of
`Rect::from_ltrb` (left ≤ right, top ≤ bottom, all finite) hold by
construction everywhere this model builds one. -/
structure URect where
  left : ℚ
  top : ℚ
  right : ℚ
  bottom : ℚ
deriving DecidableEq, Repr

/-- `Rect::from_points`: `None` on an empty slice, otherwise the min/max of
the x and y coordinates (all values are finite in the rational model). -/
def rectFromPoints : List Point → Option URect
  | [] => none
  | p :: ps =>
      some (ps.foldl
        (fun r q => ⟨min r.left q.1, min r.top q.2, max r.right q.1, max r.bottom q.2⟩)
        ⟨p.1, p.2, p.1, p.2⟩)

/-- `tiny_skia_path::Path` (imported as `PathData` in src/lib.rs): the
command list plus the bounds that `PathBuilder::finish` precomputes from
the points vector. -/
structure PathData where
  cmds : List PathCmd
  bounds : URect
deriving DecidableEq, Repr

/-- `tiny_skia_path::PathBuilder`.  The `verbs`/`points` vectors are fused
into `cmds`; `lastMoveTo` holds `points[last_move_to_index]` — `none`
exactly while the points vector is empty, matching the out-of-range
`points.get(last_move_to_index)` of a fresh builder. -/
structure PathBuilder where
  cmds : List PathCmd
  lastMoveTo : Option Point
  moveToRequired : Bool
deriving DecidableEq, Repr

/-- `PathBuilder::new()`: empty path, a `move_to` is required before any
segment. -/
def PathBuilder.new : PathBuilder := ⟨[], none, true⟩

/-- `PathBuilder::move_to`: a `MoveTo` directly after another `MoveTo`
overwrites it in place (duplicated adjacent `MoveTo` segments are merged,
and `last_move_to_index` keeps pointing at the overwritten slot);
otherwise the command is appended and remembered as the contour start. -/
def PathBuilder.move_to (b : PathBuilder) (p : Point) : PathBuilder :=
  match b.cmds.getLast? with
  | some (.moveTo _) => { b with cmds := b.cmds.dropLast ++ [.moveTo p], lastMoveTo := some p }
  | _ => { cmds := b.cmds ++ [.moveTo p], lastMoveTo := some p, moveToRequired := false }

/-- `PathBuilder::inject_move_to_if_needed`: when a contour restart is
pending, re-open it at the last explicit `MoveTo` point, or at the origin
if no point was ever pushed. -/
def PathBuilder.injectMoveToIfNeeded (b : PathBuilder) : PathBuilder :=
  if b.moveToRequired then
    match b.lastMoveTo with
    | some p => b.move_to p
    | none => b.move_to (0, 0)
  else b

/-- `PathBuilder::line_to`. -/
def PathBuilder.line_to (b : PathBuilder) (p : Point) : PathBuilder :=
  let b1 := b.injectMoveToIfNeeded
  { b1 with cmds := b1.cmds ++ [.lineTo p] }

/-- `PathBuilder::quad_to`. -/
def PathBuilder.quad_to (b : PathBuilder) (c p : Point) : PathBuilder :=
  let b1 := b.injectMoveToIfNeeded
  { b1 with cmds := b1.cmds ++ [.quadTo c p] }

/-- `PathBuilder::cubic_to`. -/
def PathBuilder.cubic_to (b : PathBuilder) (c1 c2 p : Point) : PathBuilder :=
  let b1 := b.injectMoveToIfNeeded
  { b1 with cmds := b1.cmds ++ [.cubicTo c1 c2 p] }

/-- `PathBuilder::close`: pushes a `Close` only when the path is not empty
(a closed contour without a start is not allowed), and in every case marks
that the next segment must restart the contour. -/
def PathBuilder.closePath (b : PathBuilder) : PathBuilder :=
  let b1 :=
    if b.cmds.isEmpty then b
    else
      let b2 := b.injectMoveToIfNeeded
      { b2 with cmds := b2.cmds ++ [.close] }
  { b1 with moveToRequired := true }

/-- `PathBuilder::finish`: `None` on an empty path or on a lone `MoveTo`,
otherwise the path together with `Rect::from_points` of its points. -/
def PathBuilder.finish (b : PathBuilder) : Option PathData :=
  if b.cmds.isEmpty then none
  else if b.cmds.length = 1 then none
  else
    match rectFromPoints (pointsOf b.cmds) with
    | none => none
    | some r => some ⟨b.cmds, r⟩

/-- `lyon_path::Event`, the unit of a path event stream.  A lyon `Path` is
consumed by the library only through `path.iter()`, so a path is modelled
as the list of events that iterator yields. -/
inductive PathEvent : Type
  | begin (atP : Point)
  | line (fromP toP : Point)
  | quadratic (fromP ctrl toP : Point)
  | cubic (fromP ctrl1 ctrl2 toP : Point)
  | end_ (last first : Point) (close : Bool)
deriving DecidableEq, Repr

/-- One iteration of the `for event in path.iter()` loop of
`lyon_path_to_usvg` (src/lib.rs lines 433-486), acting on the builder and
the `current` cursor. -/
def stepEvent : PathBuilder × Option Point → PathEvent → PathBuilder × Option Point
  | (b, _), .begin p => (b.move_to p, some p)
  | (b, cur), .line f t =>
      let b1 := match cur with
        | some c => if f ≠ c then b.move_to f else b
        | none => b
      (b1.line_to t, some t)
  | (b, cur), .quadratic f c t =>
      let b1 := match cur with
        | some cp => if f ≠ cp then b.move_to f else b
        | none => b
      (b1.quad_to c t, some t)
  | (b, cur), .cubic f c1 c2 t =>
      let b1 := match cur with
        | some cp => if f ≠ cp then b.move_to f else b
        | none => b
      (b1.cubic_to c1 c2 t, some t)
  | (b, cur), .end_ last first close =>
      let b1 := match cur with
        | some cp => if last ≠ cp then b.move_to last else b
        | none => b
      let b2 := if close then (b1.line_to first).closePath else b1
      (b2, some last)

/-- The builder/cursor state after consuming a whole event stream,
starting from `PathBuilder::new()` and an unset cursor. -/
def translateState (events : List PathEvent) : PathBuilder × Option Point :=
  events.foldl stepEvent (PathBuilder.new, none)

/-- `lyon_path_to_usvg` (src/lib.rs line 430): run the event loop, then
`finish` the builder. -/
def lyon_path_to_usvg (events : List PathEvent) : Option PathData :=
  (translateState events).1.finish

example :
    (lyon_path_to_usvg
      [.begin (0, 0), .line (0, 0) (1, 1), .line (1, 1) (2, 1),
       .end_ (2, 1) (0, 0) true]).map (fun p => p.cmds.length) = some 5 := by
  decide

example : lyon_path_to_usvg [] = none := by decide

example :
    (lyon_path_to_usvg [.line (1, 2) (3, 4)]).map (fun p => p.cmds) =
      some [.moveTo (0, 0), .lineTo (3, 4)] := by
  decide

/-- `usvg::Color` (carried along; never inspected by the core logic). -/
structure Color where
  red : ℕ
  green : ℕ
  blue : ℕ
deriving DecidableEq, Repr

/-- `usvg::Paint`, restricted to the `Paint::Color` constructor — the only
one this library builds. -/
inductive Paint : Type
  | color (c : Color)
deriving DecidableEq, Repr

/-- `usvg::Fill` as populated by the `fill` helper: paint plus opacity.
The remaining svg attributes keep their defaults and are elided. -/
structure Fill where
  paint : Paint
  opacity : ℚ
deriving DecidableEq, Repr

/-- `usvg::Stroke` as populated by the `stroke` helper. -/
structure Stroke where
  paint : Paint
  opacity : ℚ
  width : ℚ
deriving DecidableEq, Repr

/-- `Opacity::new_clamped`: clamp an opacity to the unit interval. -/
def Opacity.new_clamped (q : ℚ) : ℚ := min 1 (max 0 q)

/-- Utility function `fill` (src/lib.rs line 86). -/
def fill (c : Color) (opacity : ℚ) : Fill :=
  ⟨.color c, Opacity.new_clamped opacity⟩

/-- Utility function `stroke` (src/lib.rs line 76).  The
`StrokeWidth::new(width).expect(..)` panic on a non-positive width is not
modelled; no verified claim touches it. -/
def stroke (c : Color) (opacity width : ℚ) : Stroke :=
  ⟨.color c, Opacity.new_clamped opacity, width⟩

/-- `usvg::Transform` (re-exported as `SvgTransform`): a 2-D affine matrix,
only stored and defaulted by this library, never computed with. -/
structure SvgTransform where
  sx : ℚ := 1
  kx : ℚ := 0
  ky : ℚ := 0
  sy : ℚ := 1
  tx : ℚ := 0
  ty : ℚ := 0
deriving DecidableEq, Repr

/-- `Transform::default()`: the identity matrix. -/
def SvgTransform.identity : SvgTransform := {}

/-- `usvg::Path` (`SvgPath` in src/lib.rs): geometry plus paint attributes,
as filled in by `lyon_path_to_svg_with_attributes`.  The `id`, visibility
and paint-order fields keep their defaults and are elided. -/
structure SvgPath where
  data : PathData
  fill : Option Fill
  stroke : Option Stroke
  transform : SvgTransform
deriving DecidableEq, Repr

/-- `usvg::CharacterPosition` as built by `push_text`: only `x` is set. -/
structure CharacterPosition where
  x : Option ℚ
  y : Option ℚ
  dx : Option ℚ
  dy : Option ℚ
deriving DecidableEq, Repr

/-- `usvg::Text` as populated by `push_text`: one chunk holding one span
whose style covers the whole content.  Constant fields (rendering mode,
writing mode, anchor, decoration, ...) are elided; `font_size` stores the
value wrapped by `NonZeroPositiveF32`, `spanEnd` the span's `end` byte
offset. -/
structure Text where
  positions : List CharacterPosition
  transform : SvgTransform
  content : String
  spanEnd : ℕ
  fill : Option Fill
  stroke : Option Stroke
  families : List String
  font_size : ℚ
deriving DecidableEq, Repr

/-- `usvg::NodeKind`, restricted to the constructors the assembler stores
through `push`/`push_text` and that `prepare` can consume: `Path` and
`Text` (on any other kind `prepare` hits `unreachable!`; those kinds are
outside the spec's data model). -/
inductive NodeKind : Type
  | path (p : SvgPath)
  | text (t : Text)
deriving DecidableEq, Repr

/-- `LyonWriter<T>` (src/lib.rs line 69). -/
structure LyonWriter (T : Type) where
  nodes : List NodeKind
  global_transform : Option SvgTransform
  fontdb : T
deriving DecidableEq

/-- Marker struct `NoText` (src/lib.rs line 248). -/
inductive NoText : Type
  | mk
deriving DecidableEq, Repr

/-- `LyonWriter::new()` (src/lib.rs line 251). -/
def LyonWriter.new : LyonWriter NoText := ⟨[], none, .mk⟩

/-- The `(min_x, max_x, min_y, max_y)` accumulator of `prepare`, modelled
as a structure instead of a 4-tuple for readability. -/
structure Box4 where
  minX : ℚ
  maxX : ℚ
  minY : ℚ
  maxY : ℚ
deriving DecidableEq, Repr

/-- `min_an_max` (src/lib.rs line 94): widen the accumulator by one node's
bounds. -/
def min_an_max (acc : Box4) (bound : URect) : Box4 :=
  ⟨if acc.minX ≤ bound.left then acc.minX else bound.left,
   if acc.maxX ≥ bound.right then acc.maxX else bound.right,
   if acc.minY ≤ bound.top then acc.minY else bound.top,
   if acc.maxY ≥ bound.bottom then acc.maxY else bound.bottom⟩

/-- The `match_node` closure of `prepare` (src/lib.rs line 153): the
bounds of a path node, `None` for a text node. -/
def matchNode : NodeKind → Option URect
  | .path p => some p.data.bounds
  | .text _ => none

/-- The sort key the `prepare` comparator computes for a path node:
`2 * fill.is_some() as u8 + stroke.is_some() as u8`. -/
def pathSortKey (p : SvgPath) : ℕ :=
  2 * (if p.fill.isSome then 1 else 0) + (if p.stroke.isSome then 1 else 0)

/-- The comparator passed to `sort_unstable_by` in `prepare`
(src/lib.rs lines 198-205). -/
def nodeOrd : NodeKind → NodeKind → Ordering
  | .text _, .path _ => .gt
  | .path _, .text _ => .lt
  | .path p1, .path p2 => compare (pathSortKey p1) (pathSortKey p2)
  | .text _, .text _ => .eq

/-- `a` precedes-or-ties `b` under the `prepare` comparator. -/
def nodeLe (a b : NodeKind) : Prop := nodeOrd a b ≠ .gt

instance : DecidableRel nodeLe := fun a b => by
  unfold nodeLe; infer_instance

/-- Model of `slice::sort_unstable_by` with the `prepare` comparator.
Rust guarantees that the result is a permutation of the input that is
sorted with respect to the comparator, but it does not fix the relative
order of elements that compare equal; this model realises the contract
with an insertion sort (the algorithm the Rust standard library itself
uses for short slices).  Only contract-level facts — sortedness and
permutation — are used in theorems about claims. -/
def sortNodes (l : List NodeKind) : List NodeKind := List.insertionSort nodeLe l

/-- Division of an accumulated `f32` total by a node count: dividing by a
count of zero yields NaN (non-finite) in the source, modelled as `none`. -/
def qdivCount (a : ℚ) (n : ℕ) : Option ℚ := if n = 0 then none else some (a / n)

/-- `usvg::Size`. -/
structure USvgSize where
  width : ℚ
  height : ℚ
deriving DecidableEq, Repr

/-- `Size::from_wh`: both dimensions must be valid lengths, i.e. finite
and positive (finiteness is automatic in the rational model). -/
def USvgSize.from_wh (w h : ℚ) : Option USvgSize :=
  if 0 < w ∧ 0 < h then some ⟨w, h⟩ else none

/-- `usvg::NonZeroRect`. -/
structure NZRect where
  x : ℚ
  y : ℚ
  width : ℚ
  height : ℚ
deriving DecidableEq, Repr

/-- `NonZeroRect::from_xywh`: rejects a non-finite position (the `none`
case, i.e. NaN in the source) and non-positive dimensions. -/
def NZRect.from_xywh (x y : Option ℚ) (w h : ℚ) : Option NZRect :=
  match x, y with
  | some x, some y => if 0 < w ∧ 0 < h then some ⟨x, y, w, h⟩ else none
  | _, _ => none

/-- `LyonTranslationError` (src/lib.rs line 21).  The spec renames these
values: `SvgFailure` is the spec's `EmptyGeometry`, `WrongBoundingBox` its
`DegenerateViewport`, `NoFonts` its `MissingFontProvider`, and the
`FontFailure` returned by the font-size check of `push_text` is the
spec's `InvalidFontSize`.  `IoWrite` is omitted: file output is outside
the model. -/
inductive LyonTranslationError : Type
  | WrongBoundingBox
  | NoFonts
  | SvgFailure
  | FontFailure
deriving DecidableEq, Repr

/-- The `usvg::Tree` that `prepare` returns, restricted to what the
library constructs: the size, the view box, and the one inner group (the
only child of the default root group) carrying the global transform and
the sorted nodes as its children, in order. -/
structure UTree where
  size : USvgSize
  view_box : NZRect
  groupTransform : SvgTransform
  children : List NodeKind
deriving DecidableEq, Repr

/-- The `(min_x, max_x, min_y, max_y)` fold of `prepare` (src/lib.rs
lines 159-163): over the bounds of every path node, starting from the
degenerate box `(0, 0, 0, 0)`. -/
def prepBox (nodes : List NodeKind) : Box4 :=
  (nodes.filterMap matchNode).foldl min_an_max ⟨0, 0, 0, 0⟩

/-- The `(total_x, total_y)` fold of `prepare` (src/lib.rs lines
164-173): the summed bounding-box midpoints of the path nodes. -/
def prepTot (nodes : List NodeKind) : ℚ × ℚ :=
  (nodes.filterMap matchNode).foldl
    (fun acc b => (acc.1 + (b.right + b.left) / 2, acc.2 + (b.bottom + b.top) / 2))
    ((0 : ℚ), (0 : ℚ))

/-- The `width` of `prepare` (src/lib.rs lines 178-182): the box extent
when positive, else the floor value 2. -/
def prepWidth (nodes : List NodeKind) : ℚ :=
  if 0 < (prepBox nodes).maxX - (prepBox nodes).minX
  then (prepBox nodes).maxX - (prepBox nodes).minX else 2

/-- The `height` of `prepare` (src/lib.rs lines 183-187). -/
def prepHeight (nodes : List NodeKind) : ℚ :=
  if 0 < (prepBox nodes).maxY - (prepBox nodes).minY
  then (prepBox nodes).maxY - (prepBox nodes).minY else 2

/-- `LyonWriter::prepare` (src/lib.rs lines 152-220): viewport
computation, ordering and tree construction. -/
def prepare {T : Type} (w : LyonWriter T) : Except LyonTranslationError UTree :=
  match USvgSize.from_wh (prepWidth w.nodes) (prepHeight w.nodes) with
  | none => .error .WrongBoundingBox
  | some sz =>
    match NZRect.from_xywh (qdivCount (prepTot w.nodes).1 w.nodes.length)
        (qdivCount (prepTot w.nodes).2 w.nodes.length)
        (prepWidth w.nodes) (prepHeight w.nodes) with
    | none => .error .WrongBoundingBox
    | some vb =>
      .ok ⟨sz, vb, w.global_transform.getD SvgTransform.identity, sortNodes w.nodes⟩

/-- `lyon_path_to_svg_with_attributes` (src/lib.rs line 415): translate
the path, then attach fill, stroke and transform (absent transform means
identity). -/
def lyon_path_to_svg_with_attributes (events : List PathEvent) (f : Option Fill)
    (s : Option Stroke) (transform : Option SvgTransform) : Option SvgPath :=
  match lyon_path_to_usvg events with
  | none => none
  | some d => some ⟨d, f, s, transform.getD SvgTransform.identity⟩

/-- `LyonWriter::push` (src/lib.rs line 124).  The Rust `&mut self` with an
early `?` return is modelled by returning the updated writer together with
the error, if any; the `?` fires before `nodes.push`, so on error the
writer is exactly the receiver. -/
def LyonWriter.push {T : Type} (w : LyonWriter T) (events : List PathEvent)
    (f : Option Fill) (s : Option Stroke) (transform : Option SvgTransform) :
    LyonWriter T × Option LyonTranslationError :=
  match lyon_path_to_svg_with_attributes events f s transform with
  | none => (w, some .SvgFailure)
  | some p => ({ w with nodes := w.nodes ++ [.path p] }, none)

/-- `LyonWriter::push_node` (src/lib.rs line 141), restricted to the node
kinds of the data model. -/
def LyonWriter.push_node {T : Type} (w : LyonWriter T) (n : NodeKind) : LyonWriter T :=
  { w with nodes := w.nodes ++ [n] }

/-- `LyonWriter::with_transform` (src/lib.rs line 146): replaces — does
not compose with — any previously set global transform. -/
def LyonWriter.with_transform {T : Type} (w : LyonWriter T) (trans : SvgTransform) :
    LyonWriter T :=
  { w with global_transform := some trans }

/-- `usvg::fontdb::Database`: an opaque, externally populated collection
of font resources; this library never inspects its contents. -/
structure Database where
  faces : List String
deriving DecidableEq, Repr

/-- `LyonWriter::add_fonts` (src/lib.rs line 223): store the provided font
database, enabling the text operations. -/
def LyonWriter.add_fonts {T : Type} (w : LyonWriter T) (fonts : Database) :
    LyonWriter (Option Database) :=
  ⟨w.nodes, w.global_transform, some fonts⟩

/-- `LyonWriter::add_fonts_dir` (src/lib.rs line 232).  Reading a font
directory is the external collaborator's job; the model receives the
database that `fontdb::Database::load_fonts_dir` populated and, like the
source, wraps it in `Some`. -/
def LyonWriter.add_fonts_dir {T : Type} (w : LyonWriter T) (loaded : Database) :
    LyonWriter (Option Database) :=
  ⟨w.nodes, w.global_transform, some loaded⟩

/-- An `f32` argument that may be non-finite: the `font_size` parameter of
`push_text` is validated against NaN, the infinities and non-positive
values.  Finite values are exact rationals. -/
inductive F32 : Type
  | finite (q : ℚ)
  | nan
  | posInf
  | negInf
deriving DecidableEq, Repr

/-- `x.is_finite() && x > 0.0`, the condition `NonZeroPositiveF32::new`
checks (NaN comparisons are false). -/
def F32.isFinitePos : F32 → Bool
  | .finite q => decide (0 < q)
  | _ => false

/-- `NonZeroPositiveF32::new`: `Some` exactly on finite positive values;
the payload is the wrapped value. -/
def NonZeroPositiveF32.new : F32 → Option ℚ
  | .finite q => if 0 < q then some q else none
  | _ => none

/-- `LyonWriter::push_text` (src/lib.rs line 328).  The `?` on the font
size check propagates before `nodes.push` runs, so on failure the writer
is unchanged.  `text.len()` in the source is the UTF-8 byte length. -/
def LyonWriter.push_text (w : LyonWriter (Option Database)) (text : String)
    (font_families : List String) (font_size : F32) (transform : SvgTransform)
    (f : Option Fill) (s : Option Stroke) :
    LyonWriter (Option Database) × Option LyonTranslationError :=
  match NonZeroPositiveF32.new font_size with
  | none => (w, some .FontFailure)
  | some q =>
      ({ w with nodes := w.nodes ++ [.text {
          positions := (List.range text.utf8ByteSize).map
            (fun c => ⟨some (c : ℚ), none, none, none⟩),
          transform := transform,
          content := text,
          spanEnd := text.utf8ByteSize,
          fill := f,
          stroke := s,
          families := font_families,
          font_size := q }] }, none)

/-- `LyonWriter::<NoText>::write` up to file output (src/lib.rs line 260):
build the tree; serialization and the file write are external
collaborators, so the model returns the tree that would be serialized. -/
def LyonWriter.write (w : LyonWriter NoText) : Except LyonTranslationError UTree :=
  prepare w

/-- `LyonWriter::<Option<T>>::write` up to file output (src/lib.rs line
395): take the font database — failing with `NoFonts` when it is absent —
then build the tree and hand it, after the external `convert_text` pass,
to the output collaborators.  The model returns the tree `prepare`
built. -/
def LyonWriter.write_text (w : LyonWriter (Option Database)) :
    Except LyonTranslationError UTree :=
  match w.fontdb with
  | none => .error .NoFonts
  | some _ => prepare w

example : (LyonWriter.new.push [] none none none).2 = some .SvgFailure := by decide

/-- Whether the last pushed command is a `MoveTo` — the merge test at the
top of `PathBuilder::move_to`. -/
def endsWithMove (l : List PathCmd) : Bool :=
  match l.getLast? with
  | some (.moveTo _) => true
  | _ => false

theorem move_to_append (b : PathBuilder) (p : Point) (h : endsWithMove b.cmds = false) :
    b.move_to p = ⟨b.cmds ++ [.moveTo p], some p, false⟩ := by
  unfold PathBuilder.move_to
  unfold endsWithMove at h
  split
  · next q heq => rw [heq] at h; simp at h
  · rfl

theorem line_to_eq (b : PathBuilder) (p : Point) (h : b.moveToRequired = false) :
    b.line_to p = { b with cmds := b.cmds ++ [.lineTo p] } := by
  simp [PathBuilder.line_to, PathBuilder.injectMoveToIfNeeded, h]

theorem quad_to_eq (b : PathBuilder) (c p : Point) (h : b.moveToRequired = false) :
    b.quad_to c p = { b with cmds := b.cmds ++ [.quadTo c p] } := by
  simp [PathBuilder.quad_to, PathBuilder.injectMoveToIfNeeded, h]

theorem cubic_to_eq (b : PathBuilder) (c1 c2 p : Point) (h : b.moveToRequired = false) :
    b.cubic_to c1 c2 p = { b with cmds := b.cmds ++ [.cubicTo c1 c2 p] } := by
  simp [PathBuilder.cubic_to, PathBuilder.injectMoveToIfNeeded, h]

theorem closePath_eq (b : PathBuilder) (h : b.moveToRequired = false) (h2 : b.cmds ≠ []) :
    b.closePath = { b with cmds := b.cmds ++ [.close], moveToRequired := true } := by
  simp [PathBuilder.closePath, PathBuilder.injectMoveToIfNeeded, h, h2]

/-- C8. Translating `[Begin p0, Line p0 p1, Line p1 p2, End p2 p0 closed]`
— a path of two line segments with matching endpoints followed by a closed
`End` — succeeds and yields exactly the five normalized commands
MoveTo(p0), LineTo(p1), LineTo(p2), LineTo(p0) (the close-back) and
Close.  This matches the repository's own `lines_deserialize` test, which
asserts a command count of 5. -/
theorem c8_two_segments_closed_five_commands (p0 p1 p2 : Point) :
    ∃ pd,
      lyon_path_to_usvg
        [.begin p0, .line p0 p1, .line p1 p2, .end_ p2 p0 true] = some pd
      ∧ pd.cmds = [.moveTo p0, .lineTo p1, .lineTo p2, .lineTo p0, .close] := by
  have h0 : stepEvent (PathBuilder.new, none) (.begin p0)
      = (⟨[.moveTo p0], some p0, false⟩, some p0) := rfl
  have h1 : stepEvent (⟨[.moveTo p0], some p0, false⟩, some p0) (.line p0 p1)
      = (⟨[.moveTo p0, .lineTo p1], some p0, false⟩, some p1) := by
    simp [stepEvent]
    rw [line_to_eq _ _ rfl]
    rfl
  have h2 : stepEvent (⟨[.moveTo p0, .lineTo p1], some p0, false⟩, some p1) (.line p1 p2)
      = (⟨[.moveTo p0, .lineTo p1, .lineTo p2], some p0, false⟩, some p2) := by
    simp [stepEvent]
    rw [line_to_eq _ _ rfl]
    rfl
  have h3 : stepEvent (⟨[.moveTo p0, .lineTo p1, .lineTo p2], some p0, false⟩, some p2)
      (.end_ p2 p0 true)
      = (⟨[.moveTo p0, .lineTo p1, .lineTo p2, .lineTo p0, .close], some p0, true⟩, some p2) := by
    simp [stepEvent]
    rw [line_to_eq _ _ rfl, closePath_eq _ rfl (by simp)]
    rfl
  unfold lyon_path_to_usvg translateState
  rw [List.foldl_cons, h0, List.foldl_cons, h1, List.foldl_cons, h2, List.foldl_cons, h3,
    List.foldl_nil]
  exact ⟨_, rfl, rfl⟩

/-- C7. A translation producing zero drawing commands fails (the builder's
`finish` returns `None`, which `push` maps to `SvgFailure`, the spec's
`EmptyGeometry`), and a failing push is atomic: the writer — in particular
its node sequence — is exactly what it was before the call. -/
theorem c7_empty_geometry_push_atomic {T : Type} (w : LyonWriter T)
    (events : List PathEvent) (f : Option Fill) (s : Option Stroke)
    (tr : Option SvgTransform) :
    ((translateState events).1.cmds = [] → lyon_path_to_usvg events = none)
    ∧ (lyon_path_to_usvg events = none →
        w.push events f s tr = (w, some .SvgFailure)) := by
  constructor
  · intro h
    unfold lyon_path_to_usvg PathBuilder.finish
    simp [h]
  · intro h
    unfold LyonWriter.push lyon_path_to_svg_with_attributes
    rw [h]

/-- Witness for C7 at the empty event stream: the builder stays empty, so
translation fails and a push of the empty path leaves the fresh writer
unchanged while reporting `SvgFailure`. -/
theorem c7_witness :
    LyonWriter.new.push [] none none none = (LyonWriter.new, some .SvgFailure) := by
  have h := c7_empty_geometry_push_atomic (T := NoText) LyonWriter.new [] none none none
  exact h.2 (h.1 rfl)

/-- Builder invariant: an empty builder still requires a `move_to`, and a
non-empty command list starts with a `MoveTo`. -/
def BuilderInv (b : PathBuilder) : Prop :=
  (b.cmds = [] → b.moveToRequired = true)
  ∧ ∀ c, b.cmds.head? = some c → ∃ p, c = PathCmd.moveTo p

theorem builderInv_new : BuilderInv PathBuilder.new := by
  constructor
  · intro _; rfl
  · intro c hc; simp [PathBuilder.new] at hc

theorem head_append_single (l : List PathCmd) (x c : PathCmd)
    (hc : (l ++ [x]).head? = some c) : l.head? = some c ∨ (l = [] ∧ c = x) := by
  cases l with
  | nil => simp at hc; exact Or.inr ⟨rfl, hc.symm⟩
  | cons a t => simp at hc; exact Or.inl (by simp [hc])

theorem headMove_append (l : List PathCmd) (hl : l ≠ [])
    (hhead : ∀ c, l.head? = some c → ∃ p, c = PathCmd.moveTo p) (x : PathCmd) :
    ∀ c, (l ++ [x]).head? = some c → ∃ p, c = PathCmd.moveTo p := by
  intro c hc
  rcases head_append_single l x c hc with h | ⟨hnil, _⟩
  · exact hhead c h
  · exact absurd hnil hl

theorem builderInv_move_to (b : PathBuilder) (p : Point) (h : BuilderInv b) :
    BuilderInv (b.move_to p) ∧ (b.move_to p).cmds ≠ [] := by
  unfold PathBuilder.move_to
  split
  · next q heq =>
    have hne : b.cmds ≠ [] := by intro hnil; rw [hnil] at heq; simp at heq
    refine ⟨⟨by intro habs; simp at habs, ?_⟩, by simp⟩
    intro c hc
    cases hb : b.cmds with
    | nil => exact absurd hb hne
    | cons a t =>
      cases t with
      | nil => rw [hb] at hc; simp at hc; exact ⟨p, hc.symm⟩
      | cons a2 t2 =>
        rw [hb] at hc
        simp [List.dropLast] at hc
        subst hc
        exact h.2 a (by rw [hb]; rfl)
  · refine ⟨⟨by intro habs; simp at habs, ?_⟩, by simp⟩
    intro c hc
    rcases head_append_single b.cmds (.moveTo p) c hc with h' | ⟨_, hx⟩
    · exact h.2 c h'
    · exact ⟨p, hx⟩

theorem builderInv_inject (b : PathBuilder) (h : BuilderInv b) :
    BuilderInv b.injectMoveToIfNeeded ∧ (b.injectMoveToIfNeeded).cmds ≠ [] := by
  unfold PathBuilder.injectMoveToIfNeeded
  split
  · split
    · exact builderInv_move_to b _ h
    · exact builderInv_move_to b _ h
  · next hfalse =>
    exact ⟨h, fun hnil => hfalse (h.1 hnil)⟩

theorem builderInv_line_to (b : PathBuilder) (p : Point) (h : BuilderInv b) :
    BuilderInv (b.line_to p) ∧ (b.line_to p).cmds ≠ [] := by
  obtain ⟨h1, hne⟩ := builderInv_inject b h
  unfold PathBuilder.line_to
  exact ⟨⟨by intro habs; simp at habs,
    headMove_append _ hne h1.2 _⟩, by simp⟩

theorem builderInv_quad_to (b : PathBuilder) (c p : Point) (h : BuilderInv b) :
    BuilderInv (b.quad_to c p) ∧ (b.quad_to c p).cmds ≠ [] := by
  obtain ⟨h1, hne⟩ := builderInv_inject b h
  unfold PathBuilder.quad_to
  exact ⟨⟨by intro habs; simp at habs,
    headMove_append _ hne h1.2 _⟩, by simp⟩

theorem builderInv_cubic_to (b : PathBuilder) (c1 c2 p : Point) (h : BuilderInv b) :
    BuilderInv (b.cubic_to c1 c2 p) ∧ (b.cubic_to c1 c2 p).cmds ≠ [] := by
  obtain ⟨h1, hne⟩ := builderInv_inject b h
  unfold PathBuilder.cubic_to
  exact ⟨⟨by intro habs; simp at habs,
    headMove_append _ hne h1.2 _⟩, by simp⟩

theorem builderInv_close (b : PathBuilder) (h : BuilderInv b) :
    BuilderInv b.closePath := by
  unfold PathBuilder.closePath
  by_cases he : b.cmds.isEmpty = true
  · simp only [he, if_true]
    have hnil : b.cmds = [] := by simpa using he
    exact ⟨fun _ => rfl, fun c hc => by rw [hnil] at hc; simp at hc⟩
  · simp only [he, if_false]
    obtain ⟨h1, hne⟩ := builderInv_inject b h
    exact ⟨by intro habs; simp at habs, headMove_append _ hne h1.2 _⟩

theorem builderInv_step (s : PathBuilder × Option Point) (e : PathEvent)
    (h : BuilderInv s.1) : BuilderInv (stepEvent s e).1 := by
  obtain ⟨b, cur⟩ := s
  cases e with
  | begin p => exact (builderInv_move_to b p h).1
  | line f t =>
    cases cur with
    | none => exact (builderInv_line_to b t h).1
    | some c =>
      by_cases hfc : f = c
      · have hred : stepEvent (b, some c) (.line f t) = (b.line_to t, some t) := by
          simp [stepEvent, hfc]
        rw [hred]
        exact (builderInv_line_to b t h).1
      · have hred : stepEvent (b, some c) (.line f t)
            = ((b.move_to f).line_to t, some t) := by
          simp [stepEvent, hfc]
        rw [hred]
        exact (builderInv_line_to _ t (builderInv_move_to b f h).1).1
  | quadratic f ct t =>
    cases cur with
    | none => exact (builderInv_quad_to b ct t h).1
    | some c =>
      by_cases hfc : f = c
      · have hred : stepEvent (b, some c) (.quadratic f ct t) = (b.quad_to ct t, some t) := by
          simp [stepEvent, hfc]
        rw [hred]
        exact (builderInv_quad_to b ct t h).1
      · have hred : stepEvent (b, some c) (.quadratic f ct t)
            = ((b.move_to f).quad_to ct t, some t) := by
          simp [stepEvent, hfc]
        rw [hred]
        exact (builderInv_quad_to _ ct t (builderInv_move_to b f h).1).1
  | cubic f ct1 ct2 t =>
    cases cur with
    | none => exact (builderInv_cubic_to b ct1 ct2 t h).1
    | some c =>
      by_cases hfc : f = c
      · have hred : stepEvent (b, some c) (.cubic f ct1 ct2 t)
            = (b.cubic_to ct1 ct2 t, some t) := by
          simp [stepEvent, hfc]
        rw [hred]
        exact (builderInv_cubic_to b ct1 ct2 t h).1
      · have hred : stepEvent (b, some c) (.cubic f ct1 ct2 t)
            = ((b.move_to f).cubic_to ct1 ct2 t, some t) := by
          simp [stepEvent, hfc]
        rw [hred]
        exact (builderInv_cubic_to _ ct1 ct2 t (builderInv_move_to b f h).1).1
  | end_ last first close =>
    cases cur with
    | none =>
      by_cases hcl : close = true
      · have hred : stepEvent (b, none) (.end_ last first close)
            = ((b.line_to first).closePath, some last) := by
          simp [stepEvent, hcl]
        rw [hred]
        exact builderInv_close _ (builderInv_line_to b first h).1
      · have hred : stepEvent (b, none) (.end_ last first close) = (b, some last) := by
          simp [stepEvent, hcl]
        rw [hred]
        exact h
    | some cp =>
      by_cases hlc : last = cp
      · by_cases hcl : close = true
        · have hred : stepEvent (b, some cp) (.end_ last first close)
              = ((b.line_to first).closePath, some last) := by
            simp [stepEvent, hlc, hcl]
          rw [hred]
          exact builderInv_close _ (builderInv_line_to b first h).1
        · have hred : stepEvent (b, some cp) (.end_ last first close) = (b, some last) := by
            simp [stepEvent, hlc, hcl]
          rw [hred]
          exact h
      · by_cases hcl : close = true
        · have hred : stepEvent (b, some cp) (.end_ last first close)
              = (((b.move_to last).line_to first).closePath, some last) := by
            simp [stepEvent, hlc, hcl]
          rw [hred]
          exact builderInv_close _ (builderInv_line_to _ first (builderInv_move_to b last h).1).1
        · have hred : stepEvent (b, some cp) (.end_ last first close)
              = (b.move_to last, some last) := by
            simp [stepEvent, hlc, hcl]
          rw [hred]
          exact (builderInv_move_to b last h).1

theorem builderInv_foldl (events : List PathEvent) :
    ∀ s, BuilderInv s.1 → BuilderInv ((events.foldl stepEvent s).1) := by
  induction events with
  | nil => intro s h; exact h
  | cons e es ih =>
    intro s h
    rw [List.foldl_cons]
    exact ih _ (builderInv_step s e h)

/-- C9. On every event stream on which translation succeeds, the produced
command sequence is non-empty and starts with a `MoveTo` — also for
streams whose first event is not a `Begin`, thanks to the builder's
injected implicit `move_to`. -/
theorem c9_first_command_moveTo (events : List PathEvent) (pd : PathData)
    (h : lyon_path_to_usvg events = some pd) :
    ∃ p rest, pd.cmds = PathCmd.moveTo p :: rest := by
  have hinv : BuilderInv (translateState events).1 :=
    builderInv_foldl events _ builderInv_new
  unfold lyon_path_to_usvg PathBuilder.finish at h
  by_cases he : (translateState events).1.cmds.isEmpty = true
  · rw [if_pos he] at h; exact absurd h (by simp)
  · rw [if_neg he] at h
    by_cases hl : (translateState events).1.cmds.length = 1
    · rw [if_pos hl] at h; exact absurd h (by simp)
    · rw [if_neg hl] at h
      have hcmds : pd.cmds = (translateState events).1.cmds := by
        rcases hr : rectFromPoints (pointsOf (translateState events).1.cmds) with _ | r
        · rw [hr] at h; exact absurd h (by simp)
        · rw [hr] at h
          cases h
          rfl
      have hne : (translateState events).1.cmds ≠ [] := by
        intro hnil; rw [hnil] at he; simp at he
      rcases hb : (translateState events).1.cmds with _ | ⟨a, rest⟩
      · exact absurd hb hne
      · obtain ⟨p, hp⟩ := hinv.2 a (by rw [hb]; rfl)
        exact ⟨p, rest, by rw [hcmds, hb, hp]⟩

/-- Witness for C9 at a stream whose first event is a bare `Line` (no
`Begin`): translation succeeds and the first command is the injected
`MoveTo (0, 0)`. -/
theorem c9_witness :
    ∃ pd, lyon_path_to_usvg [PathEvent.line (1, 2) (3, 4)] = some pd
      ∧ ∃ p rest, pd.cmds = PathCmd.moveTo p :: rest := by
  have h : lyon_path_to_usvg [PathEvent.line (1, 2) (3, 4)]
      = some ⟨[.moveTo (0, 0), .lineTo (3, 4)], ⟨0, 0, 3, 4⟩⟩ := by decide
  exact ⟨_, h, c9_first_command_moveTo _ _ h⟩

/-- C1 (amended).  For a Line/Quadratic/Cubic event processed with the
cursor set to `c`, *provided the builder is not awaiting a contour restart
(no `Close` has just ended the contour) and the previously emitted command
is not itself a `MoveTo`*: when `from ≠ c` exactly one implicit
`MoveTo(from)` is emitted immediately before the corresponding
LineTo/QuadTo/CubicTo, when `from = c` no extra `MoveTo` is emitted, and
afterwards the cursor equals `to`.  The two provisos are forced by the
underlying builder: after a `Close` it re-opens the contour with a
`MoveTo` at the last explicit move point even when `from = c` (see the
counterexample), and an implicit `MoveTo` directly following another
`MoveTo` overwrites it instead of being appended. -/
theorem c1_segment_event_emission (b : PathBuilder) (c f ct ct1 ct2 t : Point)
    (hreq : b.moveToRequired = false) (hlast : endsWithMove b.cmds = false) :
    ((stepEvent (b, some c) (.line f t)).1.cmds
        = b.cmds ++ (if f = c then [] else [PathCmd.moveTo f]) ++ [PathCmd.lineTo t]
      ∧ (stepEvent (b, some c) (.line f t)).2 = some t)
    ∧ ((stepEvent (b, some c) (.quadratic f ct t)).1.cmds
        = b.cmds ++ (if f = c then [] else [PathCmd.moveTo f]) ++ [PathCmd.quadTo ct t]
      ∧ (stepEvent (b, some c) (.quadratic f ct t)).2 = some t)
    ∧ ((stepEvent (b, some c) (.cubic f ct1 ct2 t)).1.cmds
        = b.cmds ++ (if f = c then [] else [PathCmd.moveTo f]) ++ [PathCmd.cubicTo ct1 ct2 t]
      ∧ (stepEvent (b, some c) (.cubic f ct1 ct2 t)).2 = some t) := by
  have hmv : b.move_to f = ⟨b.cmds ++ [.moveTo f], some f, false⟩ := move_to_append b f hlast
  by_cases hfc : f = c
  · have hl : stepEvent (b, some c) (.line f t) = (b.line_to t, some t) := by
      simp [stepEvent, hfc]
    have hq : stepEvent (b, some c) (.quadratic f ct t) = (b.quad_to ct t, some t) := by
      simp [stepEvent, hfc]
    have hcu : stepEvent (b, some c) (.cubic f ct1 ct2 t)
        = (b.cubic_to ct1 ct2 t, some t) := by
      simp [stepEvent, hfc]
    rw [hl, hq, hcu, line_to_eq b t hreq, quad_to_eq b ct t hreq,
      cubic_to_eq b ct1 ct2 t hreq]
    simp [hfc]
  · have hl : stepEvent (b, some c) (.line f t) = ((b.move_to f).line_to t, some t) := by
      simp [stepEvent, hfc]
    have hq : stepEvent (b, some c) (.quadratic f ct t)
        = ((b.move_to f).quad_to ct t, some t) := by
      simp [stepEvent, hfc]
    have hcu : stepEvent (b, some c) (.cubic f ct1 ct2 t)
        = ((b.move_to f).cubic_to ct1 ct2 t, some t) := by
      simp [stepEvent, hfc]
    rw [hl, hq, hcu, hmv, line_to_eq _ t rfl, quad_to_eq _ ct t rfl,
      cubic_to_eq _ ct1 ct2 t rfl]
    simp [hfc]

/-- The event stream of the C1 counterexample: a closed triangle-free
contour, after which the cursor is `(1, 0)` and the builder awaits a
contour restart. -/
def c1CexPrefix : List PathEvent :=
  [.begin (0, 0), .line (0, 0) (1, 0), .end_ (1, 0) (0, 0) true]

/-- Counterexample to C1 as stated.  After the closed `End`, the cursor is
`(1, 0)`; processing `Line{from: (1, 0), to: (2, 0)}` — whose `from`
*equals* the cursor — nevertheless emits an extra `MoveTo (0, 0)` (the
builder re-opens the closed contour at the last explicit move point)
before the `LineTo`, instead of emitting the `LineTo` alone as the claim
requires. -/
theorem c1_counterexample :
    (translateState c1CexPrefix).2 = some (1, 0)
    ∧ (stepEvent (translateState c1CexPrefix) (.line (1, 0) (2, 0))).1.cmds
        = (translateState c1CexPrefix).1.cmds
            ++ [PathCmd.moveTo (0, 0), PathCmd.lineTo (2, 0)]
    ∧ (stepEvent (translateState c1CexPrefix) (.line (1, 0) (2, 0))).1.cmds
        ≠ (translateState c1CexPrefix).1.cmds ++ [PathCmd.lineTo (2, 0)] := by
  decide

/-- Witness for the amended C1 at a concrete builder state: mid-contour
(no restart pending, last command a `LineTo`), a `Line` event with
`from ≠ cursor` emits exactly `MoveTo from` then `LineTo to`, and the
cursor moves to `to`. -/
theorem c1_witness :
    (stepEvent (⟨[PathCmd.moveTo (0, 0), PathCmd.lineTo (1, 1)], some (0, 0), false⟩,
        some (1, 1)) (.line (5, 5) (7, 7))).1.cmds
      = [PathCmd.moveTo (0, 0), PathCmd.lineTo (1, 1),
         PathCmd.moveTo (5, 5), PathCmd.lineTo (7, 7)]
    ∧ (stepEvent (⟨[PathCmd.moveTo (0, 0), PathCmd.lineTo (1, 1)], some (0, 0), false⟩,
        some (1, 1)) (.line (5, 5) (7, 7))).2 = some (7, 7) := by
  have h := (c1_segment_event_emission
    ⟨[PathCmd.moveTo (0, 0), PathCmd.lineTo (1, 1)], some (0, 0), false⟩
    (1, 1) (5, 5) (0, 0) (0, 0) (0, 0) (7, 7) rfl (by decide)).1
  refine ⟨?_, h.2⟩
  rw [h.1]
  decide

theorem prepWidth_pos (nodes : List NodeKind) : 0 < prepWidth nodes := by
  unfold prepWidth
  split
  · assumption
  · norm_num

theorem prepHeight_pos (nodes : List NodeKind) : 0 < prepHeight nodes := by
  unfold prepHeight
  split
  · assumption
  · norm_num

/-- On a writer holding at least one node, `prepare` succeeds, and every
component of the produced tree is the corresponding `prepare`
computation. -/
theorem prepare_eval {T : Type} (w : LyonWriter T) (hlen : w.nodes.length ≠ 0) :
    prepare w = Except.ok
      ⟨⟨prepWidth w.nodes, prepHeight w.nodes⟩,
       ⟨(prepTot w.nodes).1 / (w.nodes.length : ℚ),
        (prepTot w.nodes).2 / (w.nodes.length : ℚ),
        prepWidth w.nodes, prepHeight w.nodes⟩,
       w.global_transform.getD SvgTransform.identity,
       sortNodes w.nodes⟩ := by
  have hw : USvgSize.from_wh (prepWidth w.nodes) (prepHeight w.nodes)
      = some ⟨prepWidth w.nodes, prepHeight w.nodes⟩ := by
    simp [USvgSize.from_wh, prepWidth_pos, prepHeight_pos]
  have hqx : qdivCount (prepTot w.nodes).1 w.nodes.length
      = some ((prepTot w.nodes).1 / (w.nodes.length : ℚ)) := by
    unfold qdivCount
    rw [if_neg hlen]
  have hqy : qdivCount (prepTot w.nodes).2 w.nodes.length
      = some ((prepTot w.nodes).2 / (w.nodes.length : ℚ)) := by
    unfold qdivCount
    rw [if_neg hlen]
  have hr : NZRect.from_xywh
      (some ((prepTot w.nodes).1 / (w.nodes.length : ℚ)))
      (some ((prepTot w.nodes).2 / (w.nodes.length : ℚ)))
      (prepWidth w.nodes) (prepHeight w.nodes)
      = some ⟨(prepTot w.nodes).1 / (w.nodes.length : ℚ),
          (prepTot w.nodes).2 / (w.nodes.length : ℚ),
          prepWidth w.nodes, prepHeight w.nodes⟩ := by
    simp [NZRect.from_xywh, prepWidth_pos, prepHeight_pos]
  unfold prepare
  simp only [hw, hqx, hqy, hr]

/-- On a writer holding no node at all, `prepare` fails with
`WrongBoundingBox`: the midpoint total is divided by a node count of
zero, and `NonZeroRect::from_xywh` rejects the non-finite position. -/
theorem prepare_nil {T : Type} (w : LyonWriter T) (h : w.nodes = []) :
    prepare w = Except.error .WrongBoundingBox := by
  have hw : USvgSize.from_wh (prepWidth w.nodes) (prepHeight w.nodes)
      = some ⟨prepWidth w.nodes, prepHeight w.nodes⟩ := by
    simp [USvgSize.from_wh, prepWidth_pos, prepHeight_pos]
  have hlen : w.nodes.length = 0 := by rw [h]; rfl
  have hqx : qdivCount (prepTot w.nodes).1 w.nodes.length = none := by
    unfold qdivCount
    rw [if_pos hlen]
  have hqy : qdivCount (prepTot w.nodes).2 w.nodes.length = none := by
    unfold qdivCount
    rw [if_pos hlen]
  unfold prepare
  simp only [hw, hqx, hqy]
  rfl

/-- The combined ordering key the `prepare` comparator realises: path
nodes carry their fill/stroke key (at most 3), text nodes sort after all
of them. -/
def nodeKey : NodeKind → ℕ
  | .path p => pathSortKey p
  | .text _ => 4

theorem pathSortKey_le_three (p : SvgPath) : pathSortKey p ≤ 3 := by
  cases hf : p.fill.isSome <;> cases hs : p.stroke.isSome <;>
    simp [pathSortKey, hf, hs]

theorem nodeOrd_eq_compare (a b : NodeKind) :
    nodeOrd a b = compare (nodeKey a) (nodeKey b) := by
  cases a with
  | path p1 =>
    cases b with
    | path p2 => rfl
    | text t2 =>
      have h := pathSortKey_le_three p1
      simp only [nodeOrd, nodeKey]
      exact (Nat.compare_eq_lt.mpr (by omega)).symm
  | text t1 =>
    cases b with
    | path p2 =>
      have h := pathSortKey_le_three p2
      simp only [nodeOrd, nodeKey]
      exact (Nat.compare_eq_gt.mpr (by omega)).symm
    | text t2 => simp only [nodeOrd, nodeKey]; decide

theorem nodeLe_iff (a b : NodeKind) : nodeLe a b ↔ nodeKey a ≤ nodeKey b := by
  unfold nodeLe
  rw [nodeOrd_eq_compare]
  simp [Nat.compare_eq_gt, Nat.not_lt]

instance : IsTotal NodeKind nodeLe :=
  ⟨fun a b => by rw [nodeLe_iff, nodeLe_iff]; exact Nat.le_total _ _⟩

instance : IsTrans NodeKind nodeLe :=
  ⟨fun a b c hab hbc => by
    rw [nodeLe_iff] at hab hbc ⊢
    exact le_trans hab hbc⟩

/-- The order C2 claims of the built children: every shape before every
text node, and among shapes the key `2·(fill present) + (stroke present)`
ascending. -/
def shapesBeforeTextKey : NodeKind → NodeKind → Prop
  | .path _, .text _ => True
  | .text _, .path _ => False
  | .path p1, .path p2 => pathSortKey p1 ≤ pathSortKey p2
  | .text _, .text _ => True

theorem nodeLe_imp_claim (a b : NodeKind) (h : nodeLe a b) :
    shapesBeforeTextKey a b := by
  rw [nodeLe_iff] at h
  cases a with
  | path p1 =>
    cases b with
    | path p2 => exact h
    | text t2 => trivial
  | text t1 =>
    cases b with
    | path p2 =>
      have := pathSortKey_le_three p2
      simp only [nodeKey] at h
      exact absurd h (by omega)
    | text t2 => trivial

theorem prepare_ok_children {T : Type} (w : LyonWriter T) (t : UTree)
    (h : prepare w = .ok t) : t.children = sortNodes w.nodes := by
  unfold prepare at h
  split at h
  · exact absurd h (by simp)
  · split at h
    · exact absurd h (by simp)
    · cases h; rfl

/-- C2. Whenever the build succeeds, the children of the inner group are
pairwise ordered with every shape node before every text node and among
shape nodes ascending by the key `2·(fill present) + (stroke present)`;
moreover they are a permutation of the pushed nodes. -/
theorem c2_children_order {T : Type} (w : LyonWriter T) (t : UTree)
    (h : prepare w = .ok t) :
    t.children.Pairwise shapesBeforeTextKey ∧ List.Perm t.children w.nodes := by
  rw [prepare_ok_children w t h]
  constructor
  · exact List.Pairwise.imp (fun hab => nodeLe_imp_claim _ _ hab)
      (List.sorted_insertionSort nodeLe w.nodes)
  · exact List.perm_insertionSort nodeLe w.nodes

/-- A stroke-only sample path (ordering key 1). -/
def strokeOnlyPath : SvgPath :=
  ⟨⟨[.moveTo (0, 0), .lineTo (2, 2)], ⟨0, 0, 2, 2⟩⟩, none, some (stroke ⟨0, 0, 0⟩ 1 1), {}⟩

/-- An unstyled sample path (ordering key 0). -/
def plainPath : SvgPath :=
  ⟨⟨[.moveTo (0, 0), .lineTo (4, 2)], ⟨0, 0, 4, 2⟩⟩, none, none, {}⟩

/-- A sample text node. -/
def sampleText : Text := ⟨[], {}, "hi", 2, none, none, ["Arial"], 12⟩

/-- A writer pushed with a text node, a stroke-only shape and an unstyled
shape, in that order. -/
def wC2 : LyonWriter NoText :=
  ⟨[.text sampleText, .path strokeOnlyPath, .path plainPath], none, .mk⟩

/-- Witness for C2 at `wC2`. -/
theorem c2_witness :
    ∃ t, prepare wC2 = Except.ok t
      ∧ t.children.Pairwise shapesBeforeTextKey
      ∧ List.Perm t.children wC2.nodes := by
  have h := prepare_eval wC2 (by decide)
  exact ⟨_, h, (c2_children_order wC2 _ h).1, (c2_children_order wC2 _ h).2⟩

theorem foldl_center (l : List URect) : ∀ a : ℚ × ℚ,
    l.foldl (fun acc b => (acc.1 + (b.right + b.left) / 2, acc.2 + (b.bottom + b.top) / 2)) a
      = (a.1 + (l.map (fun b => (b.right + b.left) / 2)).sum,
         a.2 + (l.map (fun b => (b.bottom + b.top) / 2)).sum) := by
  induction l with
  | nil => intro a; simp
  | cons r rest ih =>
    intro a
    rw [List.foldl_cons, ih]
    simp [add_assoc]

theorem prepTot_fst (nodes : List NodeKind) :
    (prepTot nodes).1
      = ((nodes.filterMap matchNode).map (fun b => (b.left + b.right) / 2)).sum := by
  have hfun : (fun b : URect => (b.right + b.left) / 2)
      = (fun b : URect => (b.left + b.right) / 2) := by
    funext b; ring
  unfold prepTot
  rw [foldl_center]
  show (0 : ℚ)
      + ((nodes.filterMap matchNode).map (fun b => (b.right + b.left) / 2)).sum = _
  rw [zero_add, hfun]

theorem prepTot_snd (nodes : List NodeKind) :
    (prepTot nodes).2
      = ((nodes.filterMap matchNode).map (fun b => (b.top + b.bottom) / 2)).sum := by
  have hfun : (fun b : URect => (b.bottom + b.top) / 2)
      = (fun b : URect => (b.top + b.bottom) / 2) := by
    funext b; ring
  unfold prepTot
  rw [foldl_center]
  show (0 : ℚ)
      + ((nodes.filterMap matchNode).map (fun b => (b.bottom + b.top) / 2)).sum = _
  rw [zero_add, hfun]

/-- C4. For every writer with at least one node, build succeeds and the
viewport position equals the sum of the path nodes' own bounding-box
midpoints divided by the count of *all* nodes — text nodes enlarge the
divisor but contribute nothing to the sums. -/
theorem c4_center_is_midpoint_mean {T : Type} (w : LyonWriter T)
    (hne : w.nodes ≠ []) :
    ∃ t, prepare w = Except.ok t
      ∧ t.view_box.x
          = ((w.nodes.filterMap matchNode).map (fun b => (b.left + b.right) / 2)).sum
              / (w.nodes.length : ℚ)
      ∧ t.view_box.y
          = ((w.nodes.filterMap matchNode).map (fun b => (b.top + b.bottom) / 2)).sum
              / (w.nodes.length : ℚ) := by
  have hlen : w.nodes.length ≠ 0 := fun h0 => hne (List.length_eq_zero.mp h0)
  refine ⟨_, prepare_eval w hlen, ?_, ?_⟩
  · show (prepTot w.nodes).1 / (w.nodes.length : ℚ) = _
    rw [prepTot_fst]
  · show (prepTot w.nodes).2 / (w.nodes.length : ℚ) = _
    rw [prepTot_snd]

/-- A writer holding one unstyled shape and one text node. -/
def wC4 : LyonWriter NoText := ⟨[.path plainPath, .text sampleText], none, .mk⟩

/-- Witness for C4 at `wC4`: one shape plus one text node, so the divisor
is 2 while only the shape's midpoint is summed. -/
theorem c4_witness :
    ∃ t, prepare wC4 = Except.ok t
      ∧ t.view_box.x
          = ((wC4.nodes.filterMap matchNode).map (fun b => (b.left + b.right) / 2)).sum
              / (wC4.nodes.length : ℚ)
      ∧ t.view_box.y
          = ((wC4.nodes.filterMap matchNode).map (fun b => (b.top + b.bottom) / 2)).sum
              / (wC4.nodes.length : ℚ) :=
  c4_center_is_midpoint_mean wC4 (by decide)

/-- Whether a node is a text node. -/
def isTextNode : NodeKind → Bool
  | .text _ => true
  | .path _ => false

theorem filterMap_matchNode_nil (nodes : List NodeKind)
    (h : ∀ n ∈ nodes, isTextNode n = true) : nodes.filterMap matchNode = [] := by
  rw [List.filterMap_eq_nil_iff]
  intro n hn
  cases n with
  | path p => exact absurd (h _ hn) (by simp [isTextNode])
  | text t => rfl

theorem prepWidth_all_text (nodes : List NodeKind)
    (h : nodes.filterMap matchNode = []) : prepWidth nodes = 2 := by
  unfold prepWidth prepBox
  rw [h]
  norm_num

theorem prepHeight_all_text (nodes : List NodeKind)
    (h : nodes.filterMap matchNode = []) : prepHeight nodes = 2 := by
  unfold prepHeight prepBox
  rw [h]
  norm_num

/-- C5. With zero shape nodes pushed: an entirely empty writer fails with
`WrongBoundingBox` (the spec's degenerate-viewport error, reached because
the zero node count makes the centre division non-finite), and a writer
holding only text nodes succeeds with the floor of 2 units applied to
both axes.  In the exact rational model no NaN can survive into a built
tree, and `prepare` is total on the data model's node kinds. -/
theorem c5_zero_shapes_floor_or_error {T : Type} (w : LyonWriter T)
    (hall : ∀ n ∈ w.nodes, isTextNode n = true) :
    (w.nodes = [] → prepare w = Except.error .WrongBoundingBox)
    ∧ (w.nodes ≠ [] →
        ∃ t, prepare w = Except.ok t
          ∧ t.size = ⟨2, 2⟩ ∧ t.view_box.width = 2 ∧ t.view_box.height = 2) := by
  have hfm := filterMap_matchNode_nil w.nodes hall
  constructor
  · intro hnil
    exact prepare_nil w hnil
  · intro hne
    have hlen : w.nodes.length ≠ 0 := fun h0 => hne (List.length_eq_zero.mp h0)
    refine ⟨_, prepare_eval w hlen, ?_, ?_, ?_⟩
    · show (⟨prepWidth w.nodes, prepHeight w.nodes⟩ : USvgSize) = ⟨2, 2⟩
      rw [prepWidth_all_text _ hfm, prepHeight_all_text _ hfm]
    · show prepWidth w.nodes = 2
      exact prepWidth_all_text _ hfm
    · show prepHeight w.nodes = 2
      exact prepHeight_all_text _ hfm

/-- A writer holding a single text node and no shape. -/
def wC5 : LyonWriter NoText := ⟨[.text sampleText], none, .mk⟩

/-- Witness for C5 at `wC5`: one text node, zero shapes — build succeeds
with the 2-unit floor on both axes. -/
theorem c5_witness :
    ∃ t, prepare wC5 = Except.ok t
      ∧ t.size = ⟨2, 2⟩ ∧ t.view_box.width = 2 ∧ t.view_box.height = 2 :=
  (c5_zero_shapes_floor_or_error wC5 (by decide)).2 (by decide)

theorem new_isSome_eq_isFinitePos (size : F32) :
    (NonZeroPositiveF32.new size).isSome = size.isFinitePos := by
  cases size with
  | finite q =>
    by_cases hq : 0 < q
    · simp [NonZeroPositiveF32.new, F32.isFinitePos, hq]
    · simp [NonZeroPositiveF32.new, F32.isFinitePos, hq]
  | nan => rfl
  | posInf => rfl
  | negInf => rfl

/-- C6. `push_text` fails — returning the value the source names
`FontFailure`, which plays the spec's `InvalidFontSize` role — exactly
when the given size is not a finite positive number (so `size = 0`
fails), leaving the writer untouched; on a finite positive size it
appends exactly one text node carrying the given content, families,
transform and paints. -/
theorem c6_push_text_font_size (w : LyonWriter (Option Database)) (text : String)
    (fam : List String) (size : F32) (tr : SvgTransform) (f : Option Fill)
    (s : Option Stroke) :
    (size.isFinitePos = false →
      w.push_text text fam size tr f s = (w, some .FontFailure))
    ∧ (size.isFinitePos = true →
      ∃ tn : Text, w.push_text text fam size tr f s
          = ({ w with nodes := w.nodes ++ [.text tn] }, none)
        ∧ tn.content = text ∧ tn.families = fam ∧ tn.transform = tr
        ∧ tn.fill = f ∧ tn.stroke = s
        ∧ NonZeroPositiveF32.new size = some tn.font_size) := by
  constructor
  · intro hf
    have hn : NonZeroPositiveF32.new size = none := by
      have := new_isSome_eq_isFinitePos size
      rw [hf] at this
      exact Option.not_isSome_iff_eq_none.mp (by rw [this]; exact Bool.false_ne_true)
    unfold LyonWriter.push_text
    rw [hn]
  · intro ht
    have hs : (NonZeroPositiveF32.new size).isSome = true := by
      rw [new_isSome_eq_isFinitePos, ht]
    obtain ⟨q, hq⟩ := Option.isSome_iff_exists.mp hs
    unfold LyonWriter.push_text
    rw [hq]
    exact ⟨_, rfl, rfl, rfl, rfl, rfl, rfl, rfl⟩

/-- Witness for C6 at `size = 0` on a fresh text-capable writer: the push
fails with the invalid-font-size value and the writer is unchanged. -/
theorem c6_witness :
    (LyonWriter.new.add_fonts ⟨[]⟩).push_text "hello" ["Arial"] (.finite 0)
        SvgTransform.identity none none
      = (LyonWriter.new.add_fonts ⟨[]⟩, some .FontFailure) :=
  (c6_push_text_font_size (LyonWriter.new.add_fonts ⟨[]⟩) "hello" ["Arial"]
    (.finite 0) SvgTransform.identity none none).1 (by decide)

/-- The text-capable writers reachable through the public interface: the
constructors `add_fonts` / `add_fonts_dir`, followed by any sequence of
the public operations. -/
inductive TextCapable : LyonWriter (Option Database) → Prop
  | viaAddFonts {T : Type} (w : LyonWriter T) (fonts : Database) :
      TextCapable (w.add_fonts fonts)
  | viaAddFontsDir {T : Type} (w : LyonWriter T) (loaded : Database) :
      TextCapable (w.add_fonts_dir loaded)
  | viaPush (w : LyonWriter (Option Database)) (events : List PathEvent)
      (f : Option Fill) (s : Option Stroke) (tr : Option SvgTransform)
      (h : TextCapable w) : TextCapable (w.push events f s tr).1
  | viaPushNode (w : LyonWriter (Option Database)) (n : NodeKind)
      (h : TextCapable w) : TextCapable (w.push_node n)
  | viaWithTransform (w : LyonWriter (Option Database)) (tr : SvgTransform)
      (h : TextCapable w) : TextCapable (w.with_transform tr)
  | viaPushText (w : LyonWriter (Option Database)) (text : String)
      (fam : List String) (size : F32) (tr : SvgTransform) (f : Option Fill)
      (s : Option Stroke) (h : TextCapable w) :
      TextCapable (w.push_text text fam size tr f s).1

theorem push_fontdb {T : Type} (w : LyonWriter T) (events : List PathEvent)
    (f : Option Fill) (s : Option Stroke) (tr : Option SvgTransform) :
    ((w.push events f s tr).1).fontdb = w.fontdb := by
  unfold LyonWriter.push
  split <;> rfl

theorem push_text_fontdb (w : LyonWriter (Option Database)) (text : String)
    (fam : List String) (size : F32) (tr : SvgTransform) (f : Option Fill)
    (s : Option Stroke) :
    ((w.push_text text fam size tr f s).1).fontdb = w.fontdb := by
  unfold LyonWriter.push_text
  split <;> rfl

theorem textCapable_fontdb_isSome (w : LyonWriter (Option Database))
    (h : TextCapable w) : w.fontdb.isSome = true := by
  induction h with
  | viaAddFonts w fonts => rfl
  | viaAddFontsDir w loaded => rfl
  | viaPush w events f s tr h ih => rw [push_fontdb]; exact ih
  | viaPushNode w n h ih => exact ih
  | viaWithTransform w tr h ih => exact ih
  | viaPushText w text fam size tr f s h ih => rw [push_text_fontdb]; exact ih

theorem prepare_ne_noFonts {T : Type} (w : LyonWriter T) :
    prepare w ≠ Except.error .NoFonts := by
  unfold prepare
  split
  · intro hx
    injection hx with he
    cases he
  · split
    · intro hx
      injection hx with he
      cases he
    · intro hx
      cases hx

/-- C10. Every text-capable writer reachable through the public
constructors `add_fonts` / `add_fonts_dir` (and any further public
operations) holds a present font database, so its text-enabled `write`
never reaches the `NoFonts` error branch: `fontdb.take()` always finds
`Some`. -/
theorem c10_noFonts_unreachable (w : LyonWriter (Option Database))
    (h : TextCapable w) : w.write_text ≠ Except.error .NoFonts := by
  have hs := textCapable_fontdb_isSome w h
  unfold LyonWriter.write_text
  cases hf : w.fontdb with
  | none => rw [hf] at hs; exact absurd hs (by simp)
  | some db => exact prepare_ne_noFonts w

/-- Witness for C10: a writer built by `new().add_fonts(db)` never fails
with `NoFonts` on its text-enabled write. -/
theorem c10_witness :
    (LyonWriter.new.add_fonts ⟨["DejaVu"]⟩).write_text
      ≠ Except.error .NoFonts :=
  c10_noFonts_unreachable (LyonWriter.new.add_fonts ⟨["DejaVu"]⟩)
    (TextCapable.viaAddFonts LyonWriter.new ⟨["DejaVu"]⟩)
